import Mathlib

/-
Verification of the markdown-to-metadata compiler (tools/markdown-to-mm.js).

The development shallowly embeds the three-stage pipeline: the line
classifier, the structural parser (a left fold over classified lines),
and the compiler transformations (metadata analysis, example mining,
documentation rewriting, literal emission).  JavaScript strings are
modelled as Lean `String`/`List Char`; regular expressions are unfolded
into explicit character scans matching the engine's greedy/backtracking
behaviour on the concrete patterns used by the source; exceptions are
modelled with `Except`.  External collaborators (the YAML reader and the
markdown block lexer) are modelled as parameters/abstract node lists, as
the spec declares them out of scope.
-/

namespace FolktaleMM

/-- The host language's four line terminators (line feed, carriage
return, line separator U+2028 and paragraph separator U+2029): the
characters the dot class excludes and the multiline anchors break at. -/
def lineTerm (c : Char) : Bool :=
  c == '\n' || c == '\r' || c.toNat == 0x2028 || c.toNat == 0x2029

/-- The host language's whitespace class used in the directive argument
and marker patterns: tab, line feed, vertical tab, form feed, carriage
return, space, no-break space, ogham space mark, the U+2000..U+200A
space range, the two line/paragraph separators, narrow no-break space,
medium mathematical space, ideographic space and the byte-order mark. -/
def jsWs (c : Char) : Bool :=
  c == '\t' || c == '\n' || c.toNat == 11 || c.toNat == 12 || c == '\r'
    || c == ' ' || c.toNat == 0xa0 || c.toNat == 0x1680
    || (decide (0x2000 ≤ c.toNat) && decide (c.toNat ≤ 0x200a))
    || c.toNat == 0x2028 || c.toNat == 0x2029 || c.toNat == 0x202f
    || c.toNat == 0x205f || c.toNat == 0x3000 || c.toNat == 0xfeff

/-- Space or tab, the class written as a bracket expression in the
documentation rewrite regex of mergeMeta. -/
def blankWs (c : Char) : Bool := c == ' ' || c == '\t'

/-- Boolean prefix test on character lists (the anchored literal prefix
tests of classifyLine). -/
def startsList : List Char → List Char → Bool
  | [], _ => true
  | _ :: _, [] => false
  | p :: ps, c :: cs => p == c && startsList ps cs

/-- The capture group of the directive regexes: after the literal
directive prefix, the engine greedily consumes whitespace then captures
one or more dot-class characters, backtracking over the whitespace when
needed.  Returns none exactly when the regex fails to match, in which
case the source dereferences null and throws. -/
def captureArg (r : List Char) : Option (List Char) :=
  match r.dropWhile jsWs with
  | [] =>
    match r.reverse.find? (fun c => !lineTerm c) with
    | some c => some [c]
    | none => none
  | rest => some (rest.takeWhile (fun c => !lineTerm c))

/-- The separator pattern: three or more dashes followed by only
whitespace up to the end of the string. -/
def isSepLine (cs : List Char) : Bool :=
  decide (3 ≤ (cs.takeWhile (fun c => c == '-')).length)
    && (cs.dropWhile (fun c => c == '-')).all jsWs

/-- The tagged line kinds produced by classifyLine. -/
inductive LineKind where
  | entity (ref : String)
  | guide (title : String)
  | separator
  | line (text : String)
  | eof

/-- The errors the pipeline can throw, one constructor per throw site
(plus the engine-level type errors raised by dereferencing null or by
calling string methods on non-strings). -/
inductive Err where
  | multiOnlyEntities (line : Nat)
  | multiNotImmediate (line : Nat)
  | multiNotForGuides (line : Nat)
  | separatorNoEntity (line : Nat)
  | docBeforeEntity (line : Nat)
  | nullCapture
  | nullDeref
  | unsupportedType

/-- The human-readable message attached to each structural error in the
source (line numbers are 1-indexed). -/
def errMessage : Err → String
  | .multiOnlyEntities i =>
      "Multiple annotations are only supported for entities. At line " ++ toString i
  | .multiNotImmediate i =>
      "Multiple annotations have to follow each other immediately. Annotation in meta found at line "
        ++ toString i
  | .multiNotForGuides i =>
      "Multiple annotations are not supported for guides. At line " ++ toString i
  | .separatorNoEntity i =>
      "Annotation separator found without a matching entity at line " ++ toString i
  | .docBeforeEntity i =>
      "Documentation found before an entity annotation at line " ++ toString i
  | .nullCapture => "TypeError: null has no properties"
  | .nullDeref => "TypeError: undefined has no properties"
  | .unsupportedType => "Type of property not supported"

/-- classifyLine: the four-way line classifier.  The guard regexes only
test the literal prefix; the capture regex is then re-run and its group
dereferenced, which throws when the directive has no argument text. -/
def classifyLine (l : String) : Except Err LineKind :=
  let cs := l.toList
  if startsList "@annotate:".toList cs then
    match captureArg (cs.drop 10) with
    | some a => .ok (.entity (String.mk a))
    | none => .error .nullCapture
  else if startsList "@guide:".toList cs then
    match captureArg (cs.drop 7) with
    | some a => .ok (.guide (String.mk a))
    | none => .error .nullCapture
  else if isSepLine cs then .ok .separator
  else .ok (.line l)

/-- The split on line breaks performed by parse: a CRLF or LFCR pair is
one separator, otherwise each lone CR or LF separates. -/
def splitLinesJs : List Char → List (List Char)
  | [] => [[]]
  | [c] => if c == '\r' || c == '\n' then [[], []] else [[c]]
  | c1 :: c2 :: cs =>
    if (c1 == '\r' && c2 == '\n') || (c1 == '\n' && c2 == '\r') then
      [] :: splitLinesJs cs
    else if c1 == '\r' || c1 == '\n' then
      [] :: splitLinesJs (c2 :: cs)
    else
      match splitLinesJs (c2 :: cs) with
      | [] => [[c1]]
      | l :: ls => (c1 :: l) :: ls

/-- Join lines with a single newline (used to build concrete documents
in the statements below). -/
def joinNL : List String → String
  | [] => ""
  | [l] => l
  | l :: ls => l ++ "\n" ++ joinNL ls

/-- A line free of the characters the line split consumes. -/
def lineClean (l : String) : Bool :=
  l.toList.all (fun c => !(c == '\n' || c == '\r'))

/-- The phase the structural parser stores in ctx.annotation. -/
inductive Phase where
  | entity
  | guide

/-- A reference field: a single string, or the array built by the
multi-reference grouping branch. -/
inductive RefVal where
  | one (s : String)
  | many (ss : List String)

/-- An annotation record as built by the structural parser.  Fields
absent from the source's object literals are modelled as none. -/
structure Record where
  title : Option String := none
  ref : Option RefVal := none
  meta : String := ""
  doc : String := ""
  multi : Bool := false
  sealed : Bool := false

/-- The fold state of the structural parser. -/
structure Ctx where
  phase : Option Phase
  current : Option Record
  ast : List Record

/-- The append helper: pushes the item unless it is null. -/
def appendR (l : List Record) (item : Option Record) : List Record :=
  match item with
  | some r => l ++ [r]
  | none => l

/-- intoArray applied to the current reference when the multi-reference
branch extends it (the phase being entity guarantees the record carries
a reference; the unreachable null case is modelled as the empty list). -/
def refToList : Option RefVal → List String
  | some (.one s) => [s]
  | some (.many ss) => ss
  | none => []

/-- One transition of the structural parser's reduce, with the 0-based
index of the node (error messages report i + 1). -/
def step (ctx : Ctx) (node : LineKind) (i : Nat) : Except Err Ctx :=
  match node with
  | .entity r =>
    match ctx.phase with
    | some p =>
      match p with
      | .guide => .error (.multiOnlyEntities (i + 1))
      | .entity =>
        match ctx.current with
        | none => .error .nullDeref
        | some c =>
          if c.sealed then .error (.multiNotImmediate (i + 1))
          else
            .ok { phase := some .entity,
                  current := some { ref := some (.many (refToList c.ref ++ [r])),
                                    meta := "", doc := "", multi := true, sealed := false },
                  ast := ctx.ast }
    | none =>
      .ok { phase := some .entity,
            current := some { ref := some (.one r), meta := "", doc := "",
                              multi := false, sealed := false },
            ast := appendR ctx.ast ctx.current }
  | .guide t =>
    match ctx.phase with
    | some _ => .error (.multiNotForGuides (i + 1))
    | none =>
      .ok { phase := some .guide,
            current := some { title := some t, meta := "", doc := "",
                              multi := false, sealed := false },
            ast := ctx.ast }
  | .separator =>
    match ctx.current with
    | none => .error (.separatorNoEntity (i + 1))
    | some _ => .ok { phase := none, current := ctx.current, ast := ctx.ast }
  | .eof =>
    .ok { phase := none, current := none, ast := appendR ctx.ast ctx.current }
  | .line s =>
    match ctx.current with
    | none => .error (.docBeforeEntity (i + 1))
    | some c =>
      match ctx.phase with
      | some _ =>
        .ok { phase := ctx.phase,
              current := some { c with meta := c.meta ++ "\n" ++ s, sealed := true },
              ast := ctx.ast }
      | none =>
        .ok { phase := none,
              current := some { c with doc := c.doc ++ "\n" ++ s, sealed := true },
              ast := ctx.ast }

/-- The reduce over the classified nodes, threading the node index. -/
def runParse : List LineKind → Nat → Ctx → Except Err Ctx
  | [], _, ctx => .ok ctx
  | n :: ns, i, ctx =>
    match step ctx n i with
    | .error e => .error e
    | .ok ctx' => runParse ns (i + 1) ctx'

/-- Classification of every line, in order; the source maps the
classifier over all lines before reducing, so the first classifier
throw wins over any structural error. -/
def classifyAll : List String → Except Err (List LineKind)
  | [] => .ok []
  | l :: ls =>
    match classifyLine l with
    | .error e => .error e
    | .ok k =>
      match classifyAll ls with
      | .error e => .error e
      | .ok ks => .ok (k :: ks)

/-- The initial fold state. -/
def initCtx : Ctx := { phase := none, current := none, ast := [] }

/-- The structural parser applied to an already-split line sequence. -/
def parseLines (ls : List String) : Except Err (List Record) :=
  match classifyAll ls with
  | .error e => .error e
  | .ok ns =>
    match runParse (ns ++ [.eof]) 0 initCtx with
    | .error e => .error e
    | .ok fin => .ok fin.ast

/-- parse: split the source text into lines, classify, fold, and return
the completed record sequence. -/
def parse (source : String) : Except Err (List Record) :=
  parseLines ((splitLinesJs source.toList).map String.mk)

/-- A metadata value: the scalar, sequence and mapping shapes the
emitter accepts, the null scalar, and the opaque raw-expression handle
(numbers are modelled as integers; nothing here depends on numeric
width). -/
inductive Value where
  | str (s : String)
  | boolean (b : Bool)
  | num (n : Int)
  | arr (xs : List Value)
  | obj (fs : List (String × Value))
  | null
  | raw (tag : Nat)

/-- A parsed metadata mapping, keyed by field name. -/
abbrev Fields := List (String × Value)

/-- Property lookup on a mapping (first binding wins, matching the
single-binding-per-key discipline of the host objects). -/
def getField (fs : Fields) (k : String) : Option Value :=
  (fs.find? (fun p => p.1 == k)).map (fun p => p.2)

/-- Property assignment on a mapping: replace the binding in place when
the key exists, otherwise append it (the observable behaviour of the
host's object spread/assign for one key). -/
def setField (fs : Fields) (k : String) (v : Value) : Fields :=
  if fs.any (fun p => p.1 == k) then
    fs.map (fun p => if p.1 == k then (k, v) else p)
  else fs ++ [(k, v)]

/-- Host-language truthiness of a metadata value. -/
def truthy : Value → Bool
  | .str s => !(s == "")
  | .boolean b => b
  | .num n => !(n == 0)
  | .arr _ => true
  | .obj _ => true
  | .null => false
  | .raw _ => true

/-- inferDeprecated: a truthy deprecated field forces stability to
"deprecated" via a merge; otherwise the mapping is returned as is. -/
def inferDeprecated (m : Fields) : Fields :=
  if truthy ((getField m "deprecated").getD .null) then
    setField m "stability" (.str "deprecated")
  else m

/-- A metadata unit produced by parseMeta: the target title/reference
plus the parsed fields (an expanded multi-reference target is a single
string wrapped by the one constructor). -/
structure MetaUnit where
  title : Option String := none
  ref : Option RefVal := none
  meta : Fields

/-- parseMeta over one record, parameterised by the external YAML
reader (none models a null/empty load, replaced by the empty mapping as
in the source).  The record's documentation text is assigned into the
mapping, then a multi-reference record expands into one unit per
reference sharing the same mapping. -/
def parseMeta (yload : String → Option Fields) (e : Record) : List MetaUnit :=
  let m := setField ((yload e.meta).getD []) "documentation" (.str e.doc)
  if e.multi then
    (refToList e.ref).map (fun r => { ref := some (.one r), meta := m })
  else
    [{ title := e.title, ref := e.ref, meta := m }]

/-- analyse: flatten the per-record unit lists (the source reduces with
concat from the empty array). -/
def analyse (yload : String → Option Fields) (es : List Record) : List MetaUnit :=
  (es.map (parseMeta yload)).foldl (fun a b => a ++ b) []

/-- A block node of the lexed documentation, as consumed by
collectExamples (the markdown lexer itself is the external collaborator
producing these nodes). -/
inductive MdNode where
  | heading (text : String)
  | para (text : String)
  | code (text : String)
  | other

/-- The example-marker test: the text ends with two colons followed
only by whitespace (an unanchored search, so only the tail matters). -/
def endsColons (t : String) : Bool :=
  match t.toList.reverse.dropWhile jsWs with
  | ':' :: ':' :: _ => true
  | _ => false

/-- An example candidate: the heading in force when it was flushed, and
the joined source text. -/
structure Cand where
  name : Option String
  source : String

/-- The fold state of collectExamples. -/
structure ExSt where
  examples : List Cand
  current : List String
  heading : Option String
  nextEx : Bool

/-- The join of the host's array join (empty array joins to the empty
string). -/
def joinSep (sep : String) : List String → String
  | [] => ""
  | [x] => x
  | x :: xs => x ++ sep ++ joinSep sep xs

/-- One step of the collectExamples fold: a code node is captured only
when the marker flag is set and always clears it; a heading flushes the
current accumulation (even when empty) and re-arms from its own text; a
paragraph re-arms from its text; anything else clears the flag. -/
def exStep (st : ExSt) (n : MdNode) : ExSt :=
  match n with
  | .code t =>
    if st.nextEx then
      { st with current := st.current ++ [t], nextEx := false }
    else { st with nextEx := false }
  | .heading t =>
    { examples := st.examples ++ [{ name := st.heading, source := joinSep "\n\n" st.current }],
      current := [], heading := some t, nextEx := endsColons t }
  | .para t => { st with nextEx := endsColons t }
  | .other => { st with nextEx := false }

/-- collectExamples over the lexed node sequence: fold, then flush a
trailing non-empty accumulation with the statement-separator join. -/
def collectExamples (ns : List MdNode) : List Cand :=
  let st := ns.foldl exStep { examples := [], current := [], heading := none, nextEx := false }
  if st.current.isEmpty then st.examples
  else st.examples ++ [{ name := st.heading, source := joinSep "\n;\n" st.current }]

/-- The anchor lines of the documentation rewrite: the multiline
anchors of the host engine match around every single line terminator
(each character of a CRLF pair is its own boundary), so the string is
split at each terminator character. -/
def mlines : List Char → List (List Char)
  | [] => [[]]
  | c :: cs =>
    if lineTerm c then [] :: mlines cs
    else
      match mlines cs with
      | [] => [[c]]
      | l :: ls => (c :: l) :: ls

/-- The terminator characters between those lines, in order; rejoining
lines and terminators restores the string, so the anchored rewrites
(which never touch a terminator) act line by line. -/
def terms : List Char → List Char
  | [] => []
  | c :: cs => if lineTerm c then c :: terms cs else terms cs

/-- Interleave the rewritten lines with the original terminators. -/
def joinT : List (List Char) → List Char → List Char
  | [], _ => []
  | [l], _ => l
  | l :: ls, t :: ts => l ++ t :: joinT ls ts
  | l :: ls, [] => l ++ joinT ls []

/-- First rewrite pass of mergeMeta on one line: a line that is exactly
the two-colon marker is deleted. -/
def stripColonLine (l : List Char) : List Char :=
  if l == [':', ':'] then [] else l

/-- Second rewrite pass on one line: when the line, after its trailing
blanks, ends in two colons, the engine's leftmost match replaces those
two colons and the trailing blanks by a single colon. -/
def colonMarkLine (l : List Char) : List Char :=
  match l.reverse.dropWhile blankWs with
  | ':' :: ':' :: t => (':' :: t).reverse
  | _ => l

/-- The documentation rewrite of mergeMeta: delete marker-only lines,
then soften trailing double colons, line by line, keeping every line
terminator in place. -/
def stripMarkers (doc : String) : String :=
  String.mk (joinT (((mlines doc.toList).map stripColonLine).map colonMarkLine)
    (terms doc.toList))

/-- Whether a line ends (modulo trailing blanks) in three or more
consecutive colons — the inputs on which the rewrite is not idempotent. -/
def endsThreeColons (l : List Char) : Bool :=
  match l.reverse.dropWhile blankWs with
  | ':' :: ':' :: ':' :: _ => true
  | _ => false

/-- The emitted expression tree, restricted to the node shapes the
compiler builds (an opaque constructor stands for a host expression
parsed from source text by the external expression parser). -/
inductive JsAst where
  | strLit (s : String)
  | boolLit (b : Bool)
  | numLit (n : Int)
  | arrLit (xs : List JsAst)
  | objLit (ps : List (String × JsAst))
  | funExpr (params : List String) (body : List JsAst)
  | retStmt (e : JsAst)
  | rawExpr (tag : Nat)

/-- lazy: wrap an expression in a parameterless function whose body
returns it. -/
def lazy (e : JsAst) : JsAst := .funExpr [] [.retStmt e]

/-- Key test of the special-field table (a single entry; the guard also
requires the key to be a truthy string, which only excludes the empty
key and a missing key).  The host's containment operator would also
find keys inherited from the object prototype; such keys never name
special fields in the dialect and the properties below fix the literal
back-reference key, so the prototype chain is not modelled. -/
def isSpecialKey (k : Option String) : Bool :=
  match k with
  | some s => !(s == "") && s == "~belongsTo"
  | none => false

/-- The special-field handler for the back-reference key.  The source
resolves the identifier named parse to the structural markdown parser
in scope — not the host expression parser — so the value string is fed
through the line-oriented parser; when that parser returns, its result
is an array of records on which the subsequent program-body access
dereferences an absent property and throws. -/
def parseSpecialProperty (v : Value) : Except Err JsAst :=
  match v with
  | .str s =>
    match parse s with
    | .error e => .error e
    | .ok _ => .error .nullDeref
  | _ => .error .nullDeref

mutual

/-- valueToLiteral: handle raw values, then arrays, then special keys,
then scalars, mappings, and finally the unsupported-type throw. -/
def valueToLiteral (v : Value) (key : Option String) : Except Err JsAst :=
  match v with
  | .raw t => .ok (.rawExpr t)
  | .arr xs =>
    match literalList xs with
    | .error e => .error e
    | .ok ys => .ok (.arrLit ys)
  | .str s =>
    if isSpecialKey key then parseSpecialProperty (.str s) else .ok (.strLit s)
  | .boolean b =>
    if isSpecialKey key then parseSpecialProperty (.boolean b) else .ok (.boolLit b)
  | .num n =>
    if isSpecialKey key then parseSpecialProperty (.num n) else .ok (.numLit n)
  | .obj fs =>
    if isSpecialKey key then parseSpecialProperty (.obj fs)
    else
      match literalProps fs with
      | .error e => .error e
      | .ok ps => .ok (.objLit ps)
  | .null =>
    if isSpecialKey key then parseSpecialProperty .null else .error .unsupportedType

/-- Elements of an array literal are emitted with no key. -/
def literalList : List Value → Except Err (List JsAst)
  | [] => .ok []
  | v :: vs =>
    match valueToLiteral v none with
    | .error e => .error e
    | .ok y =>
      match literalList vs with
      | .error e => .error e
      | .ok ys => .ok (y :: ys)

/-- Properties of an object literal are emitted with their own key. -/
def literalProps : List (String × Value) → Except Err (List (String × JsAst))
  | [] => .ok []
  | (k, v) :: ps =>
    match valueToLiteral v (some k) with
    | .error e => .error e
    | .ok y =>
      match literalProps ps with
      | .error e => .error e
      | .ok ys => .ok ((k, y) :: ys)

end

/-- objectToExpression: a mapping becomes an object literal of its
pairs. -/
def objectToExpression (fs : Fields) : Except Err JsAst :=
  match literalProps fs with
  | .error e => .error e
  | .ok ps => .ok (.objLit ps)

/-- The record resulting from appending a run of metadata lines while
in an annotation phase (each line newline-joins onto the metadata text
and seals the record). -/
def sealMeta (c : Record) : List String → Record
  | [] => c
  | p :: ps => sealMeta { c with meta := c.meta ++ "\n" ++ p, sealed := true } ps

/-- The record resulting from appending a run of documentation lines
while outside any annotation phase. -/
def sealDoc (c : Record) : List String → Record
  | [] => c
  | p :: ps => sealDoc { c with doc := c.doc ++ "\n" ++ p, sealed := true } ps

/-- The directive lines whose argument capture fails, making the
classifier dereference null: a directive prefix followed by nothing but
line terminators. -/
def bareDirective (l : String) : Bool :=
  let cs := l.toList
  (startsList "@annotate:".toList cs && (cs.drop 10).all lineTerm)
    || (startsList "@guide:".toList cs && (cs.drop 7).all lineTerm)

/-- Whether an exceptional computation succeeded. -/
def exOk {α : Type} : Except Err α → Bool
  | .ok _ => true
  | .error _ => false

/-- The analysis stage of the pipeline applied to a document: structural
parse, then per-record metadata analysis. -/
def analyseDoc (yload : String → Option Fields) (d : String) :
    Except Err (List MetaUnit) :=
  match parse d with
  | .error e => .error e
  | .ok rs => .ok (analyse yload rs)

/- ----------------------------------------------------------------- -/
/- Helper lemmas                                                      -/
/- ----------------------------------------------------------------- -/

theorem find?_map_replace (k : String) (v : Value) :
    ∀ fs : Fields, fs.any (fun p => p.1 == k) = true →
      (fs.map (fun p => if p.1 == k then (k, v) else p)).find? (fun p => p.1 == k)
        = some (k, v) := by
  intro fs h
  induction fs with
  | nil => simp at h
  | cons p ps ih =>
    rw [List.map_cons]
    by_cases hp : (p.1 == k) = true
    · rw [if_pos hp]
      exact List.find?_cons_of_pos _ (by simp)
    · have hp' : (p.1 == k) = false := by simpa using hp
      rw [if_neg hp]
      have hstep : List.find? (fun q => q.1 == k)
            (p :: (ps.map fun q => if q.1 == k then (k, v) else q))
          = List.find? (fun q => q.1 == k) (ps.map fun q => if q.1 == k then (k, v) else q) :=
        List.find?_cons_of_neg _ hp
      rw [hstep]
      simp only [List.any_cons, hp', Bool.false_or] at h
      exact ih h

theorem getField_setField (fs : Fields) (k : String) (v : Value) :
    getField (setField fs k v) k = some v := by
  unfold getField setField
  by_cases h : fs.any (fun p => p.1 == k) = true
  · rw [if_pos h, find?_map_replace k v fs h]
    rfl
  · rw [if_neg h]
    have hn : fs.find? (fun p => p.1 == k) = none := by
      rw [List.find?_eq_none]
      intro x hx hxk
      exact h (List.any_eq_true.mpr ⟨x, hx, hxk⟩)
    rw [List.find?_append, hn]
    simp

theorem dropWhile_head_false (p : Char → Bool) :
    ∀ (r : List Char) (c : Char) (rest : List Char),
      r.dropWhile p = c :: rest → p c = false := by
  intro r
  induction r with
  | nil => intro c rest h; simp [List.dropWhile] at h
  | cons a as ih =>
    intro c rest h
    rw [List.dropWhile_cons] at h
    by_cases ha : p a = true
    · rw [if_pos ha] at h; exact ih c rest h
    · rw [if_neg ha] at h
      cases h
      simpa using ha

theorem lineTerm_imp_jsWs (c : Char) (h : lineTerm c = true) : jsWs c = true := by
  unfold lineTerm at h
  unfold jsWs
  simp only [Bool.or_eq_true] at h ⊢
  tauto

theorem captureArg_eq_none_iff (r : List Char) :
    captureArg r = none ↔ r.all lineTerm = true := by
  cases hd : r.dropWhile jsWs with
  | nil =>
    have hbody : captureArg r
        = (match r.reverse.find? (fun c => !lineTerm c) with
           | some c => some [c]
           | none => none) := by
      unfold captureArg
      rw [hd]
    cases hf : r.reverse.find? (fun c => !lineTerm c) with
    | some c =>
      have h2 : captureArg r = some [c] := by rw [hbody, hf]
      rw [h2]
      apply iff_of_false (by simp)
      intro hall
      have hc := List.find?_some hf
      have hmem : c ∈ r := List.mem_reverse.mp (List.mem_of_find?_eq_some hf)
      have := (List.all_eq_true.mp hall) c hmem
      rw [this] at hc
      simp at hc
    | none =>
      have h2 : captureArg r = none := by rw [hbody, hf]
      rw [h2]
      apply iff_of_true rfl
      rw [List.all_eq_true]
      intro c hc
      have := List.find?_eq_none.mp hf c (List.mem_reverse.mpr hc)
      simpa using this
  | cons c rest =>
    have h2 : captureArg r = some ((c :: rest).takeWhile (fun x => !lineTerm x)) := by
      unfold captureArg
      rw [hd]
    rw [h2]
    apply iff_of_false (by simp)
    intro hall
    have hpc : jsWs c = false := dropWhile_head_false jsWs r c rest hd
    have hmem : c ∈ r := by
      have hsub : List.Sublist (r.dropWhile jsWs) r := List.dropWhile_sublist jsWs
      rw [hd] at hsub
      exact hsub.subset (List.mem_cons_self c rest)
    have := (List.all_eq_true.mp hall) c hmem
    rw [lineTerm_imp_jsWs c this] at hpc
    cases hpc

theorem annotate_not_guide (cs : List Char)
    (h : startsList "@annotate:".toList cs = true) :
    startsList "@guide:".toList cs = false := by
  match cs with
  | [] => exact absurd h (by decide)
  | [c] =>
    have e : startsList "@annotate:".toList [c] = (('@' == c) && false) := rfl
    rw [e] at h
    simp at h
  | c0 :: c1 :: rest =>
    have e : startsList "@annotate:".toList (c0 :: c1 :: rest)
        = (('@' == c0) && (('a' == c1) && startsList "nnotate:".toList rest)) := rfl
    rw [e, Bool.and_eq_true, Bool.and_eq_true] at h
    have e0 : c0 = '@' := (beq_iff_eq.mp h.1).symm
    have e1 : c1 = 'a' := (beq_iff_eq.mp h.2.1).symm
    subst e0; subst e1
    rfl

/- ----------------------------------------------------------------- -/
/- Claim theorems                                                     -/
/- ----------------------------------------------------------------- -/

/-- Claim C1 (code bug witness): on a document where an entity record's
documentation has ended (phase null) and a guide directive follows, the
parser output contains only the guide record — the completed entity
record is silently discarded because the guide transition keeps the
completed-records sequence unchanged instead of pushing the previous
record as the entity transition and end-of-input do. -/
theorem guide_discards_previous_record :
    parse "@annotate: a\n---\nx\n@guide: G"
      = .ok [{ title := some "G", ref := none, meta := "", doc := "",
               multi := false, sealed := false }] := rfl

/-- Claim C2 (code bug witness): emitting a metadata mapping whose
belongs-to key holds a perfectly valid host expression does not produce
a lazily-evaluated reference: the special-field handler feeds the value
to the structural markdown parser (the binding named parse in scope),
which throws its documentation-before-annotation error on the very
first line of the value. -/
theorem belongsTo_special_field_crashes :
    objectToExpression [("~belongsTo", Value.str "folktale.core")]
      = .error (.docBeforeEntity 1) := rfl

/-- Claim C3 (counterexample): the classifier is not total — a directive
line with no argument text passes the prefix guard but the argument
capture fails, and dereferencing the null match throws. -/
theorem classifyLine_bare_directive_counterexample :
    classifyLine "@annotate:" = .error .nullCapture := rfl

/-- Claim C4 (counterexample): on a heading ending in the example
marker followed by two fenced code blocks and a new heading, mining
yields two candidates, not one — so the claimed single concatenated
candidate is refuted. -/
theorem collectExamples_two_blocks_counterexample :
    collectExamples [.heading "Example::", .code "a", .code "b", .heading "Next"]
        = [{ name := none, source := "" }, { name := some "Example::", source := "a" }]
    ∧ (collectExamples [.heading "Example::", .code "a", .code "b", .heading "Next"]).length ≠ 1 :=
  ⟨rfl, by decide⟩

/-- Claim C4 (amended): for a heading ending in the marker followed by
two code blocks and a new heading, mining yields exactly two
candidates: an unnamed empty-source candidate flushed at the first
heading, and one named by that heading containing only the first code
block — the marker flag is cleared by the first block, so the second
block is dropped. -/
theorem collectExamples_two_blocks (h c1 c2 h2 : String)
    (hm : endsColons h = true) :
    collectExamples [.heading h, .code c1, .code c2, .heading h2]
      = [{ name := none, source := "" }, { name := some h, source := c1 }] := by
  simp [collectExamples, exStep, hm, joinSep]

/-- Witness for the amended C4 theorem at a concrete marker heading. -/
theorem collectExamples_two_blocks_witness :
    collectExamples [.heading "Usage::", .code "x + 1", .code "y", .heading "See also"]
      = [{ name := none, source := "" }, { name := some "Usage::", source := "x + 1" }] :=
  collectExamples_two_blocks "Usage::" "x + 1" "y" "See also" (by decide)

/-- Claim C5 (counterexample): the documentation rewrite is not
idempotent on a line of three colons — one application leaves the bare
marker line, which the next application deletes. -/
theorem stripMarkers_not_idempotent_counterexample :
    stripMarkers (stripMarkers ":::") ≠ stripMarkers ":::" := by decide

/-- Claim C8: a truthy deprecated field forces the stability field to
"deprecated", overriding any value already present; otherwise the
mapping is returned unchanged. -/
theorem inferDeprecated_spec (m : Fields) :
    (truthy ((getField m "deprecated").getD .null) = true →
      getField (inferDeprecated m) "stability" = some (.str "deprecated"))
    ∧ (truthy ((getField m "deprecated").getD .null) = false →
      inferDeprecated m = m) := by
  constructor
  · intro h
    unfold inferDeprecated
    rw [if_pos h]
    exact getField_setField m "stability" (.str "deprecated")
  · intro h
    unfold inferDeprecated
    rw [if_neg (by simp [h])]

/-- Witness for C8: a mapping carrying both a truthy deprecated flag
and a conflicting stability value ends with stability "deprecated". -/
theorem inferDeprecated_spec_witness :
    getField (inferDeprecated [("deprecated", Value.boolean true),
                               ("stability", Value.str "stable")]) "stability"
      = some (Value.str "deprecated") :=
  (inferDeprecated_spec [("deprecated", Value.boolean true),
                         ("stability", Value.str "stable")]).1 rfl

theorem sepLine_classify (l : String) (hl : isSepLine l.toList = true) :
    classifyLine l = .ok .separator := by
  have hhead : ∃ t, l.toList = '-' :: t := by
    cases hcs : l.toList with
    | nil => rw [hcs] at hl; exact absurd hl (by decide)
    | cons c t =>
      rw [hcs] at hl
      by_cases hc : c = '-'
      · exact ⟨t, by rw [hc]⟩
      · exfalso
        unfold isSepLine at hl
        have hcb : (c == '-') = false := by simpa using hc
        simp only [List.takeWhile_cons, hcb] at hl
        simp at hl
  obtain ⟨t, ht⟩ := hhead
  have ha : startsList "@annotate:".toList l.toList = false := by rw [ht]; rfl
  have hg : startsList "@guide:".toList l.toList = false := by rw [ht]; rfl
  unfold classifyLine
  simp only [ha, hg, hl]
  simp

/-- Claim C3 (amended): the classifier succeeds on exactly those lines
that are not a directive prefix followed by nothing but line
terminators (on those it dereferences a null match and throws), and
every line that fails all three patterns degrades to a plain line. -/
theorem classifyLine_amended (l : String) :
    (exOk (classifyLine l) = !bareDirective l)
    ∧ (startsList "@annotate:".toList l.toList = false →
       startsList "@guide:".toList l.toList = false →
       isSepLine l.toList = false →
       classifyLine l = .ok (.line l)) := by
  constructor
  · by_cases h1 : startsList "@annotate:".toList l.toList = true
    · have hg : startsList "@guide:".toList l.toList = false := annotate_not_guide _ h1
      unfold classifyLine bareDirective
      simp only [h1, hg, if_true, Bool.true_and, Bool.false_and, Bool.or_false]
      cases hc : captureArg (l.toList.drop 10) with
      | some a =>
        have hfalse : (l.toList.drop 10).all lineTerm = false := by
          cases hb : (l.toList.drop 10).all lineTerm with
          | false => rfl
          | true =>
            rw [(captureArg_eq_none_iff _).mpr hb] at hc
            cases hc
        rw [hfalse]
        rfl
      | none =>
        have htrue : (l.toList.drop 10).all lineTerm = true :=
          (captureArg_eq_none_iff _).mp hc
        rw [htrue]
        rfl
    · have h1' : startsList "@annotate:".toList l.toList = false := by simpa using h1
      by_cases h2 : startsList "@guide:".toList l.toList = true
      · unfold classifyLine bareDirective
        simp only [h1', h2, if_true, Bool.true_and, Bool.false_and, Bool.false_or]
        cases hc : captureArg (l.toList.drop 7) with
        | some a =>
          have hfalse : (l.toList.drop 7).all lineTerm = false := by
            cases hb : (l.toList.drop 7).all lineTerm with
            | false => rfl
            | true =>
              rw [(captureArg_eq_none_iff _).mpr hb] at hc
              cases hc
          rw [hfalse]
          rfl
        | none =>
          have htrue : (l.toList.drop 7).all lineTerm = true :=
            (captureArg_eq_none_iff _).mp hc
          rw [htrue]
          rfl
      · have h2' : startsList "@guide:".toList l.toList = false := by simpa using h2
        unfold classifyLine bareDirective
        simp only [h1', h2', Bool.false_and, Bool.or_self]
        cases hsep : isSepLine l.toList <;> simp [exOk]
  · intro h1 h2 h3
    unfold classifyLine
    simp only [h1, h2, h3]
    simp

/-- Witness for the amended C3 theorem: an ordinary prose line is
classified without error as a plain line. -/
theorem classifyLine_amended_witness :
    classifyLine "just prose" = .ok (.line "just prose") :=
  (classifyLine_amended "just prose").2 (by decide) (by decide) (by decide)

/-- Claim C10: a separator line reached while the phase is already null
and a record is current leaves the record (reference, metadata text,
documentation text, sealed flag) and the completed sequence untouched,
and the line's own text is discarded by classification. -/
theorem separator_frame (l : String) (ctx : Ctx) (c : Record) (i : Nat)
    (hl : isSepLine l.toList = true) (hc : ctx.current = some c)
    (_hp : ctx.phase = none) :
    classifyLine l = .ok .separator
    ∧ step ctx .separator i = .ok { phase := none, current := some c, ast := ctx.ast } := by
  refine ⟨sepLine_classify l hl, ?_⟩
  unfold step
  rw [hc]

/-- Witness for C10 at a concrete separator and context. -/
theorem separator_frame_witness :
    classifyLine "----" = .ok .separator
    ∧ step { phase := none,
             current := some { ref := some (RefVal.one "a"), doc := "\nx", sealed := true },
             ast := [] } .separator 7
      = .ok { phase := none,
              current := some { ref := some (RefVal.one "a"), doc := "\nx", sealed := true },
              ast := [] } :=
  separator_frame "----"
    { phase := none,
      current := some { ref := some (RefVal.one "a"), doc := "\nx", sealed := true },
      ast := [] }
    { ref := some (RefVal.one "a"), doc := "\nx", sealed := true } 7
    (by decide) rfl rfl

theorem mlines_ne_nil : ∀ cs : List Char, mlines cs ≠ [] := by
  intro cs
  induction cs with
  | nil => simp [mlines]
  | cons c cs ih =>
    unfold mlines
    by_cases hc : lineTerm c = true
    · simp [hc]
    · have hc' : lineTerm c = false := by simpa using hc
      simp only [hc', Bool.false_eq_true, if_false]
      cases hm : mlines cs with
      | nil => simp
      | cons l ls => simp

theorem mlines_no_term : ∀ (cs l : List Char), l ∈ mlines cs →
    ∀ c ∈ l, lineTerm c = false := by
  intro cs
  induction cs with
  | nil =>
    intro l hl
    simp [mlines] at hl
    subst hl
    intro c hc
    simp at hc
  | cons c cs ih =>
    intro l hl
    unfold mlines at hl
    by_cases hc : lineTerm c = true
    · simp only [hc, if_true] at hl
      rcases List.mem_cons.mp hl with rfl | hl2
      · intro x hx; simp at hx
      · exact ih l hl2
    · have hc' : lineTerm c = false := by simpa using hc
      simp only [hc', Bool.false_eq_true, if_false] at hl
      cases hm : mlines cs with
      | nil => exact absurd hm (mlines_ne_nil cs)
      | cons l0 ls =>
        rw [hm] at hl
        rcases List.mem_cons.mp hl with rfl | hl2
        · intro x hx
          rcases List.mem_cons.mp hx with rfl | hx2
          · exact hc'
          · exact ih l0 (hm ▸ List.mem_cons_self l0 ls) x hx2
        · exact ih l (hm ▸ List.mem_cons_of_mem l0 hl2)

theorem mlines_single (l : List Char) (h : ∀ c ∈ l, lineTerm c = false) :
    mlines l = [l] := by
  induction l with
  | nil => rfl
  | cons c cs ih =>
    have hc : lineTerm c = false := h c (List.mem_cons_self c cs)
    unfold mlines
    simp only [hc, Bool.false_eq_true, if_false]
    rw [ih (fun x hx => h x (List.mem_cons_of_mem c hx))]

theorem terms_single (l : List Char) (h : ∀ c ∈ l, lineTerm c = false) :
    terms l = [] := by
  induction l with
  | nil => rfl
  | cons c cs ih =>
    have hc : lineTerm c = false := h c (List.mem_cons_self c cs)
    unfold terms
    simp only [hc, Bool.false_eq_true, if_false]
    exact ih (fun x hx => h x (List.mem_cons_of_mem c hx))

theorem mlines_append (l : List Char) (t : Char) (rest : List Char)
    (h : ∀ c ∈ l, lineTerm c = false) (ht : lineTerm t = true) :
    mlines (l ++ t :: rest) = l :: mlines rest := by
  induction l with
  | nil =>
    show mlines (t :: rest) = [] :: mlines rest
    conv_lhs => rw [mlines]
    simp [ht]
  | cons c cs ih =>
    have hc : lineTerm c = false := h c (List.mem_cons_self c cs)
    show mlines (c :: (cs ++ t :: rest)) = (c :: cs) :: mlines rest
    conv_lhs => rw [mlines]
    simp only [hc, Bool.false_eq_true, if_false]
    rw [ih (fun x hx => h x (List.mem_cons_of_mem c hx))]

theorem terms_append (l : List Char) (t : Char) (rest : List Char)
    (h : ∀ c ∈ l, lineTerm c = false) (ht : lineTerm t = true) :
    terms (l ++ t :: rest) = t :: terms rest := by
  induction l with
  | nil =>
    show terms (t :: rest) = t :: terms rest
    conv_lhs => rw [terms]
    simp [ht]
  | cons c cs ih =>
    have hc : lineTerm c = false := h c (List.mem_cons_self c cs)
    show terms (c :: (cs ++ t :: rest)) = t :: terms rest
    conv_lhs => rw [terms]
    simp only [hc, Bool.false_eq_true, if_false]
    exact ih (fun x hx => h x (List.mem_cons_of_mem c hx))

theorem terms_all_term : ∀ cs : List Char, ∀ t ∈ terms cs, lineTerm t = true := by
  intro cs
  induction cs with
  | nil => intro t ht; simp [terms] at ht
  | cons c cs ih =>
    intro t ht
    unfold terms at ht
    by_cases hc : lineTerm c = true
    · simp only [hc, if_true] at ht
      rcases List.mem_cons.mp ht with rfl | h2
      · exact hc
      · exact ih t h2
    · have hc' : lineTerm c = false := by simpa using hc
      simp only [hc', Bool.false_eq_true, if_false] at ht
      exact ih t ht

theorem mlines_terms_length : ∀ cs : List Char,
    (mlines cs).length = (terms cs).length + 1 := by
  intro cs
  induction cs with
  | nil => rfl
  | cons c cs ih =>
    unfold mlines terms
    by_cases hc : lineTerm c = true
    · simp [hc, ih]
    · have hc' : lineTerm c = false := by simpa using hc
      simp only [hc', Bool.false_eq_true, if_false]
      cases hm : mlines cs with
      | nil => exact absurd hm (mlines_ne_nil cs)
      | cons l ls =>
        rw [hm] at ih
        simp only [List.length_cons] at ih ⊢
        omega

theorem mlines_joinT : ∀ (L : List (List Char)) (T : List Char),
    L.length = T.length + 1 →
    (∀ l ∈ L, ∀ c ∈ l, lineTerm c = false) →
    (∀ t ∈ T, lineTerm t = true) →
    mlines (joinT L T) = L := by
  intro L
  induction L with
  | nil =>
    intro T hlen _ _
    simp at hlen
  | cons l L' ih =>
    intro T hlen hL hT
    cases L' with
    | nil =>
      cases T with
      | nil =>
        show mlines l = [l]
        exact mlines_single l (hL l (List.mem_cons_self l []))
      | cons t ts => simp at hlen
    | cons l2 L2 =>
      cases T with
      | nil =>
        simp only [List.length_cons, List.length_nil] at hlen
        omega
      | cons t ts =>
        show mlines (l ++ t :: joinT (l2 :: L2) ts) = l :: l2 :: L2
        rw [mlines_append l t _ (hL l (List.mem_cons_self l _))
              (hT t (List.mem_cons_self t ts))]
        rw [ih ts (by simp only [List.length_cons] at hlen ⊢; omega)
              (fun x hx => hL x (List.mem_cons_of_mem _ hx))
              (fun x hx => hT x (List.mem_cons_of_mem _ hx))]

theorem terms_joinT : ∀ (L : List (List Char)) (T : List Char),
    L.length = T.length + 1 →
    (∀ l ∈ L, ∀ c ∈ l, lineTerm c = false) →
    (∀ t ∈ T, lineTerm t = true) →
    terms (joinT L T) = T := by
  intro L
  induction L with
  | nil =>
    intro T hlen _ _
    simp at hlen
  | cons l L' ih =>
    intro T hlen hL hT
    cases L' with
    | nil =>
      cases T with
      | nil =>
        show terms l = []
        exact terms_single l (hL l (List.mem_cons_self l []))
      | cons t ts => simp at hlen
    | cons l2 L2 =>
      cases T with
      | nil =>
        simp only [List.length_cons, List.length_nil] at hlen
        omega
      | cons t ts =>
        show terms (l ++ t :: joinT (l2 :: L2) ts) = t :: ts
        rw [terms_append l t _ (hL l (List.mem_cons_self l _))
              (hT t (List.mem_cons_self t ts))]
        rw [ih ts (by simp only [List.length_cons] at hlen ⊢; omega)
              (fun x hx => hL x (List.mem_cons_of_mem _ hx))
              (fun x hx => hT x (List.mem_cons_of_mem _ hx))]

theorem stripColon_of_ne (l : List Char) (h : l ≠ [':', ':']) :
    stripColonLine l = l := by
  unfold stripColonLine
  rw [if_neg (by simpa using h)]

theorem stripColon_no_term (l : List Char) (h : ∀ c ∈ l, lineTerm c = false) :
    ∀ c ∈ stripColonLine l, lineTerm c = false := by
  unfold stripColonLine
  by_cases he : (l == [':', ':']) = true
  · simp [he]
  · have he' : (l == [':', ':']) = false := by simpa using he
    simp only [he', Bool.false_eq_true, if_false]
    exact h

theorem colonMark_of_no_match (l : List Char)
    (h : ∀ t, l.reverse.dropWhile blankWs ≠ ':' :: ':' :: t) :
    colonMarkLine l = l := by
  unfold colonMarkLine
  split
  · rename_i t heq
    exact absurd heq (h t)
  · rfl

theorem colonMark_of_match (l t : List Char)
    (heq : l.reverse.dropWhile blankWs = ':' :: ':' :: t) :
    colonMarkLine l = (':' :: t).reverse := by
  unfold colonMarkLine
  split
  · rename_i t' heq'
    rw [heq] at heq'
    injection heq' with _ h1
    injection h1 with _ h2
    rw [h2]
  · rename_i hno
    exact absurd heq (hno t)

theorem colonMark_no_term (l : List Char) (h : ∀ c ∈ l, lineTerm c = false) :
    ∀ c ∈ colonMarkLine l, lineTerm c = false := by
  unfold colonMarkLine
  split
  · rename_i t heq
    intro x hx
    rw [List.mem_reverse] at hx
    have hsub : List.Sublist (':' :: ':' :: t) l.reverse := by
      rw [← heq]; exact List.dropWhile_sublist blankWs
    rcases List.mem_cons.mp hx with rfl | hx2
    · decide
    · have : x ∈ l.reverse :=
        hsub.subset (List.mem_cons_of_mem _ (List.mem_cons_of_mem _ hx2))
      exact h x (List.mem_reverse.mp this)
  · exact h

theorem colonLine_idem (l : List Char) (h3 : endsThreeColons l = false) :
    colonMarkLine (stripColonLine (colonMarkLine (stripColonLine l)))
      = colonMarkLine (stripColonLine l) := by
  by_cases hcc : l = [':', ':']
  · subst hcc; rfl
  · rw [stripColon_of_ne l hcc]
    by_cases hmatch : ∃ t, l.reverse.dropWhile blankWs = ':' :: ':' :: t
    · obtain ⟨t, heq⟩ := hmatch
      rw [colonMark_of_match l t heq]
      have ht : ∀ t', t ≠ ':' :: t' := by
        intro t' he
        unfold endsThreeColons at h3
        rw [heq, he] at h3
        exact Bool.noConfusion h3
      have hne : (':' :: t).reverse ≠ [':', ':'] := by
        intro he
        have h4 := congrArg List.reverse he
        rw [List.reverse_reverse] at h4
        rw [show ([':', ':'] : List Char).reverse = [':', ':'] from rfl] at h4
        injection h4 with _ h5
        exact ht [] (by rw [h5])
      rw [stripColon_of_ne _ hne]
      have hdw : (':' :: t).reverse.reverse.dropWhile blankWs = ':' :: t := by
        rw [List.reverse_reverse, List.dropWhile_cons, if_neg (by decide)]
      cases t with
      | nil =>
        apply colonMark_of_no_match
        intro t' he
        rw [hdw] at he
        injection he with _ h5
        exact List.noConfusion h5
      | cons c t2 =>
        have hc : c ≠ ':' := fun he => ht t2 (by rw [he])
        apply colonMark_of_no_match
        intro t' he
        rw [hdw] at he
        injection he with _ h5
        injection h5 with hc' _
        exact hc hc'
    · push_neg at hmatch
      rw [colonMark_of_no_match l hmatch, stripColon_of_ne l hcc,
          colonMark_of_no_match l hmatch]

/-- Claim C5 (amended): the documentation rewrite is idempotent on
every document in which no line, after its trailing blanks, ends in
three or more consecutive colons (the counterexample shows it is not
idempotent beyond that bound). -/
theorem stripMarkers_idem (doc : String)
    (h : ∀ l ∈ mlines doc.toList, endsThreeColons l = false) :
    stripMarkers (stripMarkers doc) = stripMarkers doc := by
  unfold stripMarkers
  have htl : ∀ X : List Char, (String.mk X).toList = X := fun _ => rfl
  rw [htl]
  have hnt : ∀ l ∈ ((mlines doc.toList).map stripColonLine).map colonMarkLine,
      ∀ c ∈ l, lineTerm c = false := by
    intro l hl
    obtain ⟨x, hx, rfl⟩ := List.mem_map.mp hl
    obtain ⟨y, hy, rfl⟩ := List.mem_map.mp hx
    exact colonMark_no_term _ (stripColon_no_term _ (mlines_no_term doc.toList y hy))
  have hlen : (((mlines doc.toList).map stripColonLine).map colonMarkLine).length
      = (terms doc.toList).length + 1 := by
    simp only [List.length_map]
    exact mlines_terms_length doc.toList
  have hterm := terms_all_term doc.toList
  rw [mlines_joinT _ _ hlen hnt hterm, terms_joinT _ _ hlen hnt hterm]
  congr 1
  congr 1
  simp only [List.map_map]
  apply List.map_congr_left
  intro y hy
  simp only [Function.comp_apply]
  exact colonLine_idem y (h y hy)

/-- Witness for the amended C5 theorem on a document using the markers
as intended. -/
theorem stripMarkers_idem_witness :
    stripMarkers (stripMarkers "Heading::\n::\ncode") = stripMarkers "Heading::\n::\ncode" :=
  stripMarkers_idem "Heading::\n::\ncode" (by decide)

theorem toList_append (a b : String) : (a ++ b).toList = a.toList ++ b.toList := by
  cases a
  cases b
  rfl

theorem lineClean_not (l : String) (hc : lineClean l = true) :
    ∀ c ∈ l.toList, ¬(c = '\n' ∨ c = '\r') := by
  intro c hm
  unfold lineClean at hc
  have := List.all_eq_true.mp hc c hm
  simpa using this

theorem splitLinesJs_nl (rest : List Char) (hr : rest.head? ≠ some '\r') :
    splitLinesJs ('\n' :: rest) = [] :: splitLinesJs rest := by
  cases rest with
  | nil => rfl
  | cons c cs =>
    have hc : (c == '\r') = false := by
      have : c ≠ '\r' := fun he => hr (by simp [he])
      simpa using this
    show splitLinesJs ('\n' :: c :: cs) = [] :: splitLinesJs (c :: cs)
    conv_lhs => rw [splitLinesJs]
    simp [show (('\n' : Char) == '\r') = false from rfl,
          show (('\n' : Char) == '\n') = true from rfl, hc]

theorem splitLinesJs_clean : ∀ l : List Char,
    (∀ c ∈ l, ¬(c = '\n' ∨ c = '\r')) → splitLinesJs l = [l] := by
  intro l
  induction l with
  | nil => intro _; rfl
  | cons c cs ih =>
    intro hl
    have hc1 : (c == '\r') = false := by
      have := hl c (List.mem_cons_self c cs)
      simp only [not_or] at this
      simpa using this.2
    have hc2 : (c == '\n') = false := by
      have := hl c (List.mem_cons_self c cs)
      simp only [not_or] at this
      simpa using this.1
    cases cs with
    | nil =>
      show splitLinesJs [c] = [[c]]
      unfold splitLinesJs
      simp [hc1, hc2]
    | cons c2 cs2 =>
      show splitLinesJs (c :: c2 :: cs2) = [c :: c2 :: cs2]
      conv_lhs => rw [splitLinesJs]
      simp only [hc1, hc2, Bool.false_and, Bool.or_self, Bool.false_eq_true, if_false]
      rw [ih (fun x hx => hl x (List.mem_cons_of_mem c hx))]

theorem splitLinesJs_clean_append : ∀ (l rest : List Char),
    (∀ c ∈ l, ¬(c = '\n' ∨ c = '\r')) → rest.head? ≠ some '\r' →
    splitLinesJs (l ++ '\n' :: rest) = l :: splitLinesJs rest := by
  intro l
  induction l with
  | nil => intro rest _ hr; exact splitLinesJs_nl rest hr
  | cons c cs ih =>
    intro rest hl hr
    have hc1 : (c == '\r') = false := by
      have := hl c (List.mem_cons_self c cs)
      simp only [not_or] at this
      simpa using this.2
    have hc2 : (c == '\n') = false := by
      have := hl c (List.mem_cons_self c cs)
      simp only [not_or] at this
      simpa using this.1
    cases cs with
    | nil =>
      show splitLinesJs (c :: '\n' :: rest) = [c] :: splitLinesJs rest
      conv_lhs => rw [splitLinesJs]
      simp only [hc1, hc2, show (('\n' : Char) == '\n') = true from rfl,
                 show (('\n' : Char) == '\r') = false from rfl,
                 Bool.false_and, Bool.and_true, Bool.and_false, Bool.or_false,
                 Bool.or_self, Bool.false_eq_true, if_false]
      rw [splitLinesJs_nl rest hr]
    | cons c2 cs2 =>
      show splitLinesJs (c :: c2 :: (cs2 ++ '\n' :: rest)) = (c :: c2 :: cs2) :: splitLinesJs rest
      conv_lhs => rw [splitLinesJs]
      simp only [hc1, hc2, Bool.false_and, Bool.or_self, Bool.false_eq_true, if_false]
      have hih := ih rest (fun x hx => hl x (List.mem_cons_of_mem c hx)) hr
      rw [List.cons_append] at hih
      rw [hih]

theorem joinNL_head_not_cr : ∀ ls : List String,
    (∀ l ∈ ls, lineClean l = true) → (joinNL ls).toList.head? ≠ some '\r' := by
  intro ls hc
  cases ls with
  | nil => intro h; exact Option.noConfusion h
  | cons l ls' =>
    cases ls' with
    | nil =>
      show l.toList.head? ≠ some '\r'
      cases hl : l.toList with
      | nil => intro h; exact Option.noConfusion h
      | cons c cs =>
        intro h
        injection h with h'
        have := lineClean_not l (hc l (List.mem_cons_self l _)) c (by rw [hl]; exact List.mem_cons_self c cs)
        exact this (Or.inr h')
    | cons l2 ls2 =>
      show ((l ++ "\n") ++ joinNL (l2 :: ls2)).toList.head? ≠ some '\r'
      rw [toList_append, toList_append]
      cases hl : l.toList with
      | nil =>
        intro h
        injection h with h'
        exact absurd h'.symm (by decide)
      | cons c cs =>
        intro h
        injection h with h'
        have := lineClean_not l (hc l (List.mem_cons_self l _)) c (by rw [hl]; exact List.mem_cons_self c cs)
        exact this (Or.inr h')

theorem splitLinesJs_joinNL : ∀ ls : List String, ls ≠ [] →
    (∀ l ∈ ls, lineClean l = true) →
    splitLinesJs (joinNL ls).toList = ls.map String.toList := by
  intro ls
  induction ls with
  | nil => intro h; exact absurd rfl h
  | cons l ls' ih =>
    intro _ hc
    cases ls' with
    | nil =>
      show splitLinesJs l.toList = [l.toList]
      exact splitLinesJs_clean l.toList (lineClean_not l (hc l (List.mem_cons_self l _)))
    | cons l2 ls2 =>
      show splitLinesJs ((l ++ "\n") ++ joinNL (l2 :: ls2)).toList = _
      rw [toList_append, toList_append,
          show ("\n" : String).toList = ['\n'] from rfl, List.append_assoc,
          List.singleton_append]
      rw [splitLinesJs_clean_append l.toList _
            (lineClean_not l (hc l (List.mem_cons_self l _)))
            (joinNL_head_not_cr (l2 :: ls2) (fun x hx => hc x (List.mem_cons_of_mem l hx)))]
      rw [ih (by simp) (fun x hx => hc x (List.mem_cons_of_mem l hx))]
      rfl

theorem parse_joinNL (ls : List String) (h0 : ls ≠ [])
    (hc : ∀ l ∈ ls, lineClean l = true) :
    parse (joinNL ls) = parseLines ls := by
  unfold parse
  rw [splitLinesJs_joinNL ls h0 hc, List.map_map]
  have : ls.map (String.mk ∘ String.toList) = ls.map id :=
    List.map_congr_left (fun x _ => rfl)
  rw [this, List.map_id]

theorem runParse_append (ns ms : List LineKind) : ∀ (i : Nat) (ctx : Ctx),
    runParse (ns ++ ms) i ctx
      = match runParse ns i ctx with
        | .error e => .error e
        | .ok c => runParse ms (i + ns.length) c := by
  induction ns with
  | nil =>
    intro i ctx
    show runParse ms i ctx = runParse ms (i + 0) ctx
    rw [Nat.add_zero]
  | cons n ns ih =>
    intro i ctx
    have e1 : runParse ((n :: ns) ++ ms) i ctx
        = match step ctx n i with
          | .error e => .error e
          | .ok c => runParse (ns ++ ms) (i + 1) c := rfl
    have e2 : runParse (n :: ns) i ctx
        = match step ctx n i with
          | .error e => .error e
          | .ok c => runParse ns (i + 1) c := rfl
    rw [e1, e2]
    cases hs : step ctx n i with
    | error e => rfl
    | ok c =>
      show runParse (ns ++ ms) (i + 1) c
          = match runParse ns (i + 1) c with
            | .error e => .error e
            | .ok c2 => runParse ms (i + (n :: ns).length) c2
      rw [ih (i + 1) c]
      have harith : i + 1 + ns.length = i + (n :: ns).length := by
        simp only [List.length_cons]
        omega
      rw [harith]

theorem classifyAll_append (a b : List String) :
    classifyAll (a ++ b)
      = match classifyAll a with
        | .error e => .error e
        | .ok ka =>
          match classifyAll b with
          | .error e => .error e
          | .ok kb => .ok (ka ++ kb) := by
  induction a with
  | nil =>
    show classifyAll b = _
    cases hb : classifyAll b <;> rfl
  | cons l ls ih =>
    have e1 : classifyAll ((l :: ls) ++ b)
        = match classifyLine l with
          | .error e => .error e
          | .ok k =>
            match classifyAll (ls ++ b) with
            | .error e => .error e
            | .ok ks => .ok (k :: ks) := rfl
    have e2 : classifyAll (l :: ls)
        = match classifyLine l with
          | .error e => .error e
          | .ok k =>
            match classifyAll ls with
            | .error e => .error e
            | .ok ks => .ok (k :: ks) := rfl
    rw [e1, e2, ih]
    cases hcl : classifyLine l with
    | error e => rfl
    | ok k =>
      cases ha : classifyAll ls with
      | error e => rfl
      | ok ks =>
        cases hb : classifyAll b with
        | error e => rfl
        | ok kb => rfl

theorem classifyAll_plain (ps : List String)
    (h : ∀ p ∈ ps, classifyLine p = .ok (.line p)) :
    classifyAll ps = .ok (ps.map .line) := by
  induction ps with
  | nil => rfl
  | cons p ps ih =>
    have e : classifyAll (p :: ps)
        = match classifyLine p with
          | .error e => .error e
          | .ok k =>
            match classifyAll ps with
            | .error e => .error e
            | .ok ks => .ok (k :: ks) := rfl
    rw [e, h p (List.mem_cons_self p ps),
        ih (fun q hq => h q (List.mem_cons_of_mem _ hq))]
    rfl

theorem classifyAll_ok_exists (ls : List String)
    (h : ∀ l ∈ ls, exOk (classifyLine l) = true) :
    ∃ ks, classifyAll ls = .ok ks := by
  induction ls with
  | nil => exact ⟨[], rfl⟩
  | cons l ls ih =>
    obtain ⟨ks, hks⟩ := ih (fun q hq => h q (List.mem_cons_of_mem _ hq))
    have hl := h l (List.mem_cons_self _ _)
    cases hcl : classifyLine l with
    | error e =>
      rw [hcl] at hl
      exact absurd hl (by simp [exOk])
    | ok k =>
      refine ⟨k :: ks, ?_⟩
      have e : classifyAll (l :: ls)
          = match classifyLine l with
            | .error e => .error e
            | .ok k =>
              match classifyAll ls with
              | .error e => .error e
              | .ok ks => .ok (k :: ks) := rfl
      rw [e, hcl, hks]

theorem classifyAll_length : ∀ (ls : List String) (ks : List LineKind),
    classifyAll ls = .ok ks → ks.length = ls.length := by
  intro ls
  induction ls with
  | nil =>
    intro ks h
    have h2 : (Except.ok [] : Except Err (List LineKind)) = .ok ks := h
    injection h2 with h'
    rw [← h']
    rfl
  | cons l ls ih =>
    intro ks h
    have e : classifyAll (l :: ls)
        = match classifyLine l with
          | .error e => .error e
          | .ok k =>
            match classifyAll ls with
            | .error e => .error e
            | .ok ks => .ok (k :: ks) := rfl
    rw [e] at h
    cases hcl : classifyLine l with
    | error e' => rw [hcl] at h; cases h
    | ok k =>
      rw [hcl] at h
      cases ha : classifyAll ls with
      | error e' => rw [ha] at h; cases h
      | ok ks' =>
        rw [ha] at h
        injection h with h'
        rw [← h']
        simp [ih ks' ha]

theorem runParse_meta_run (ps : List String) :
    ∀ (rest : List LineKind) (i : Nat) (ph : Phase) (c : Record) (ast : List Record),
    runParse (ps.map .line ++ rest) i { phase := some ph, current := some c, ast := ast }
      = runParse rest (i + ps.length)
          { phase := some ph, current := some (sealMeta c ps), ast := ast } := by
  induction ps with
  | nil =>
    intro rest i ph c ast
    show runParse rest i _ = runParse rest (i + 0) _
    rw [Nat.add_zero]
    rfl
  | cons p ps ih =>
    intro rest i ph c ast
    have e3 : runParse (.line p :: (ps.map .line ++ rest)) i
          { phase := some ph, current := some c, ast := ast }
        = runParse (ps.map .line ++ rest) (i + 1)
            { phase := some ph,
              current := some { c with meta := c.meta ++ "\n" ++ p, sealed := true },
              ast := ast } := rfl
    show runParse (.line p :: (ps.map .line ++ rest)) i
        { phase := some ph, current := some c, ast := ast } = _
    rw [e3, ih rest (i + 1) ph _ ast]
    have harith : i + 1 + ps.length = i + (p :: ps).length := by
      simp only [List.length_cons]
      omega
    rw [harith]
    rfl

theorem runParse_doc_run (ds : List String) :
    ∀ (rest : List LineKind) (i : Nat) (c : Record) (ast : List Record),
    runParse (ds.map .line ++ rest) i { phase := none, current := some c, ast := ast }
      = runParse rest (i + ds.length)
          { phase := none, current := some (sealDoc c ds), ast := ast } := by
  induction ds with
  | nil =>
    intro rest i c ast
    show runParse rest i _ = runParse rest (i + 0) _
    rw [Nat.add_zero]
    rfl
  | cons p ds ih =>
    intro rest i c ast
    have e3 : runParse (.line p :: (ds.map .line ++ rest)) i
          { phase := none, current := some c, ast := ast }
        = runParse (ds.map .line ++ rest) (i + 1)
            { phase := none,
              current := some { c with doc := c.doc ++ "\n" ++ p, sealed := true },
              ast := ast } := rfl
    show runParse (.line p :: (ds.map .line ++ rest)) i
        { phase := none, current := some c, ast := ast } = _
    rw [e3, ih rest (i + 1) _ ast]
    have harith : i + 1 + ds.length = i + (p :: ds).length := by
      simp only [List.length_cons]
      omega
    rw [harith]
    rfl

theorem sealMeta_sealed_true : ∀ (ps : List String) (c : Record),
    c.sealed = true → (sealMeta c ps).sealed = true := by
  intro ps
  induction ps with
  | nil => intro c h; exact h
  | cons p ps ih => intro c _; exact ih _ rfl

theorem sealMeta_sealed_of_ne (ps : List String) (c : Record) (h : ps ≠ []) :
    (sealMeta c ps).sealed = true := by
  cases ps with
  | nil => exact absurd rfl h
  | cons p ps => exact sealMeta_sealed_true ps _ rfl

theorem sealMeta_fields : ∀ (ps : List String) (c : Record),
    (sealMeta c ps).title = c.title ∧ (sealMeta c ps).ref = c.ref
      ∧ (sealMeta c ps).doc = c.doc ∧ (sealMeta c ps).multi = c.multi := by
  intro ps
  induction ps with
  | nil => intro c; exact ⟨rfl, rfl, rfl, rfl⟩
  | cons p ps ih => intro c; exact ih _

theorem sealDoc_fields : ∀ (ds : List String) (c : Record),
    (sealDoc c ds).title = c.title ∧ (sealDoc c ds).ref = c.ref
      ∧ (sealDoc c ds).meta = c.meta ∧ (sealDoc c ds).multi = c.multi := by
  intro ds
  induction ds with
  | nil => intro c; exact ⟨rfl, rfl, rfl, rfl⟩
  | cons p ds ih => intro c; exact ih _

theorem step_inv (ctx ctx' : Ctx) (n : LineKind) (i : Nat)
    (hInv : ∀ c, ctx.current = some c → c.sealed = false → c.meta = "" ∧ c.doc = "")
    (h : step ctx n i = .ok ctx') :
    ∀ c, ctx'.current = some c → c.sealed = false → c.meta = "" ∧ c.doc = "" := by
  cases n with
  | entity r =>
    unfold step at h
    cases hp : ctx.phase with
    | none =>
      rw [hp] at h
      injection h with h'
      subst h'
      intro c hc _
      cases hc
      exact ⟨rfl, rfl⟩
    | some p =>
      rw [hp] at h
      cases p with
      | guide => cases h
      | entity =>
        cases hcur : ctx.current with
        | none => rw [hcur] at h; cases h
        | some c0 =>
          rw [hcur] at h
          by_cases hs : c0.sealed = true
          · simp only [hs, if_true] at h
            cases h
          · have hs' : c0.sealed = false := by simpa using hs
            simp only [hs', Bool.false_eq_true, if_false] at h
            injection h with h'
            subst h'
            intro c hc _
            cases hc
            exact ⟨rfl, rfl⟩
  | guide t =>
    unfold step at h
    cases hp : ctx.phase with
    | none =>
      rw [hp] at h
      injection h with h'
      subst h'
      intro c hc _
      cases hc
      exact ⟨rfl, rfl⟩
    | some p => rw [hp] at h; cases h
  | separator =>
    unfold step at h
    cases hcur : ctx.current with
    | none => rw [hcur] at h; cases h
    | some c0 =>
      rw [hcur] at h
      injection h with h'
      subst h'
      intro c hc hsl
      cases hc
      exact hInv c0 hcur hsl
  | eof =>
    unfold step at h
    injection h with h'
    subst h'
    intro c hc
    exact absurd hc (fun hx => Option.noConfusion hx)
  | line s =>
    unfold step at h
    cases hcur : ctx.current with
    | none => rw [hcur] at h; cases h
    | some c0 =>
      rw [hcur] at h
      cases hp : ctx.phase with
      | none =>
        rw [hp] at h
        injection h with h'
        subst h'
        intro c hc hsl
        cases hc
        cases hsl
      | some p =>
        rw [hp] at h
        injection h with h'
        subst h'
        intro c hc hsl
        cases hc
        cases hsl

/-- Claim C9: at every successfully reached fold state, a current
record that is not yet sealed has empty metadata and documentation
texts — so the multi-reference grouping transition, which resets both
texts of the new record to empty, never discards accumulated text. -/
theorem unsealed_record_empty (ns : List LineKind) :
    ∀ (i : Nat) (ctx ctx' : Ctx),
    (∀ c, ctx.current = some c → c.sealed = false → c.meta = "" ∧ c.doc = "") →
    runParse ns i ctx = .ok ctx' →
    ∀ c, ctx'.current = some c → c.sealed = false → c.meta = "" ∧ c.doc = "" := by
  induction ns with
  | nil =>
    intro i ctx ctx' hInv h
    have h2 : (Except.ok ctx : Except Err Ctx) = .ok ctx' := h
    injection h2 with h'
    subst h'
    exact hInv
  | cons n ns ih =>
    intro i ctx ctx' hInv h
    have e : runParse (n :: ns) i ctx
        = match step ctx n i with
          | .error e => .error e
          | .ok c2 => runParse ns (i + 1) c2 := rfl
    rw [e] at h
    cases hs : step ctx n i with
    | error e' => rw [hs] at h; cases h
    | ok c2 =>
      rw [hs] at h
      exact ih (i + 1) c2 ctx' (step_inv ctx c2 n i hInv hs) h

/-- Witness for C9: the record created by a fresh entity directive is
unsealed with empty metadata and documentation texts. -/
theorem unsealed_record_empty_witness :
    ({ title := none, ref := some (RefVal.one "a"), meta := "", doc := "",
       multi := false, sealed := false } : Record).meta = ""
    ∧ ({ title := none, ref := some (RefVal.one "a"), meta := "", doc := "",
         multi := false, sealed := false } : Record).doc = "" :=
  unsealed_record_empty [.entity "a"] 0 initCtx
    { phase := some .entity,
      current := some { title := none, ref := some (RefVal.one "a"), meta := "",
                        doc := "", multi := false, sealed := false },
      ast := [] }
    (fun _ hc _ => Option.noConfusion hc)
    rfl
    { title := none, ref := some (RefVal.one "a"), meta := "", doc := "",
      multi := false, sealed := false }
    rfl rfl

theorem step_entity_null (ctx : Ctx) (r : String) (i : Nat) (h : ctx.phase = none) :
    step ctx (.entity r) i
      = .ok { phase := some .entity,
              current := some { title := none, ref := some (.one r), meta := "", doc := "",
                                multi := false, sealed := false },
              ast := appendR ctx.ast ctx.current } := by
  unfold step
  rw [h]

theorem step_entity_sealed (ctx : Ctx) (c : Record) (r : String) (i : Nat)
    (hph : ctx.phase = some .entity) (hcur : ctx.current = some c)
    (hs : c.sealed = true) :
    step ctx (.entity r) i = .error (.multiNotImmediate (i + 1)) := by
  unfold step
  rw [hph, hcur]
  simp only [hs, if_true]

/-- Claim C6: after any prefix whose fold ends outside an annotation
phase, an entity directive, at least one plain line, and a second
entity directive make the whole parse fail with the
multiple-annotations-must-follow-immediately error (reported at the
second directive's 1-indexed line), producing no records.  All lines
after the second directive only need to classify without error, since
the source classifies every line before folding. -/
theorem sealed_multi_ref_error
    (pre : List String) (preNodes : List LineKind) (ctx : Ctx)
    (da db a b : String) (ps rest : List String)
    (h1 : classifyAll pre = .ok preNodes)
    (h2 : runParse preNodes 0 initCtx = .ok ctx)
    (h3 : ctx.phase = none)
    (hda : classifyLine da = .ok (.entity a))
    (hdb : classifyLine db = .ok (.entity b))
    (hps : ps ≠ [])
    (hp : ∀ p ∈ ps, classifyLine p = .ok (.line p))
    (hrest : ∀ l ∈ rest, exOk (classifyLine l) = true)
    (hclean : ∀ l ∈ pre ++ [da] ++ ps ++ [db] ++ rest, lineClean l = true) :
    parse (joinNL (pre ++ [da] ++ ps ++ [db] ++ rest))
      = .error (.multiNotImmediate (pre.length + ps.length + 2)) := by
  have hne : pre ++ [da] ++ ps ++ [db] ++ rest ≠ [] := by simp
  rw [parse_joinNL _ hne hclean]
  obtain ⟨ks, hks⟩ := classifyAll_ok_exists rest hrest
  have hassoc : pre ++ [da] ++ ps ++ [db] ++ rest = pre ++ da :: (ps ++ db :: rest) := by
    simp
  rw [hassoc]
  have hc3 : classifyAll (db :: rest) = .ok (.entity b :: ks) := by
    have e : classifyAll (db :: rest)
        = match classifyLine db with
          | .error e => .error e
          | .ok k =>
            match classifyAll rest with
            | .error e => .error e
            | .ok ks2 => .ok (k :: ks2) := rfl
    rw [e, hdb, hks]
  have hc2 : classifyAll (ps ++ db :: rest) = .ok (ps.map .line ++ .entity b :: ks) := by
    rw [classifyAll_append ps (db :: rest), classifyAll_plain ps hp, hc3]
  have hc1 : classifyAll (da :: (ps ++ db :: rest))
      = .ok (.entity a :: (ps.map .line ++ .entity b :: ks)) := by
    have e : classifyAll (da :: (ps ++ db :: rest))
        = match classifyLine da with
          | .error e => .error e
          | .ok k =>
            match classifyAll (ps ++ db :: rest) with
            | .error e => .error e
            | .ok ks2 => .ok (k :: ks2) := rfl
    rw [e, hda, hc2]
  have hclass : classifyAll (pre ++ da :: (ps ++ db :: rest))
      = .ok (preNodes ++ .entity a :: (ps.map .line ++ .entity b :: ks)) := by
    rw [classifyAll_append pre (da :: (ps ++ db :: rest)), h1, hc1]
  have ep : parseLines (pre ++ da :: (ps ++ db :: rest))
      = match classifyAll (pre ++ da :: (ps ++ db :: rest)) with
        | .error e => .error e
        | .ok ns =>
          match runParse (ns ++ [.eof]) 0 initCtx with
          | .error e => .error e
          | .ok fin => .ok fin.ast := rfl
  rw [ep, hclass]
  have hrun : runParse ((preNodes ++ .entity a :: (ps.map .line ++ .entity b :: ks)) ++ [.eof])
        0 initCtx
      = .error (.multiNotImmediate (0 + preNodes.length + 1 + ps.length + 1)) := by
    rw [List.append_assoc]
    rw [runParse_append preNodes _ 0 initCtx, h2]
    show runParse ((.entity a :: (ps.map .line ++ .entity b :: ks)) ++ [.eof])
        (0 + preNodes.length) ctx = _
    rw [List.cons_append]
    have e4 : runParse (.entity a :: ((ps.map .line ++ .entity b :: ks) ++ [.eof]))
          (0 + preNodes.length) ctx
        = match step ctx (.entity a) (0 + preNodes.length) with
          | .error e => .error e
          | .ok c2 =>
            runParse ((ps.map .line ++ .entity b :: ks) ++ [.eof])
              (0 + preNodes.length + 1) c2 := rfl
    rw [e4, step_entity_null ctx a _ h3]
    show runParse ((ps.map .line ++ .entity b :: ks) ++ [.eof]) (0 + preNodes.length + 1)
        { phase := some .entity,
          current := some { title := none, ref := some (.one a), meta := "", doc := "",
                            multi := false, sealed := false },
          ast := appendR ctx.ast ctx.current } = _
    rw [List.append_assoc, List.cons_append]
    rw [runParse_meta_run ps _ _ .entity _ _]
    have e5 : runParse (.entity b :: (ks ++ [.eof])) (0 + preNodes.length + 1 + ps.length)
          { phase := some .entity,
            current := some (sealMeta { title := none, ref := some (.one a), meta := "",
                                        doc := "", multi := false, sealed := false } ps),
            ast := appendR ctx.ast ctx.current }
        = match step { phase := some .entity,
                       current := some (sealMeta { title := none, ref := some (.one a),
                                                   meta := "", doc := "", multi := false,
                                                   sealed := false } ps),
                       ast := appendR ctx.ast ctx.current }
              (.entity b) (0 + preNodes.length + 1 + ps.length) with
          | .error e => .error e
          | .ok c2 => runParse (ks ++ [.eof]) (0 + preNodes.length + 1 + ps.length + 1) c2 := rfl
    rw [e5, step_entity_sealed _ _ b _ rfl rfl (sealMeta_sealed_of_ne ps _ hps)]
  have hlen : preNodes.length = pre.length := classifyAll_length pre preNodes h1
  have harith : 0 + preNodes.length + 1 + ps.length + 1 = pre.length + ps.length + 2 := by
    rw [hlen]
    omega
  show (match runParse ((preNodes ++ .entity a :: (ps.map .line ++ .entity b :: ks)) ++ [.eof])
          0 initCtx with
        | .error e => (.error e : Except Err (List Record))
        | .ok fin => .ok fin.ast)
      = .error (.multiNotImmediate (pre.length + ps.length + 2))
  rw [hrun, harith]

/-- Witness for C6 on a concrete three-line document. -/
theorem sealed_multi_ref_error_witness :
    parse (joinNL ["@annotate: a", "x", "@annotate: b"])
      = .error (.multiNotImmediate 3) :=
  sealed_multi_ref_error [] [] initCtx "@annotate: a" "@annotate: b" "a" "b" ["x"] []
    rfl rfl rfl rfl rfl (by simp)
    (fun p hp => by rw [List.mem_singleton.mp hp]; rfl)
    (fun l hl => absurd hl (List.not_mem_nil l))
    (by decide)

/-- Claim C7: a document with two immediately adjacent entity
directives sharing one metadata block, separator and documentation
block analyses to exactly two metadata units with the same fields
mapping, targeting the two references in document order (stated for an
arbitrary external YAML reader). -/
theorem multi_ref_two_units
    (yload : String → Option Fields)
    (da db a b : String) (ms ds : List String)
    (hda : classifyLine da = .ok (.entity a))
    (hdb : classifyLine db = .ok (.entity b))
    (hms : ∀ p ∈ ms, classifyLine p = .ok (.line p))
    (hds : ∀ p ∈ ds, classifyLine p = .ok (.line p))
    (hclean : ∀ l ∈ da :: db :: (ms ++ "---" :: ds), lineClean l = true) :
    ∃ m, analyseDoc yload (joinNL (da :: db :: (ms ++ "---" :: ds)))
      = .ok [{ title := none, ref := some (.one a), meta := m },
             { title := none, ref := some (.one b), meta := m }] := by
  have hne : da :: db :: (ms ++ "---" :: ds) ≠ [] := by simp
  have hcds : classifyAll ds = .ok (ds.map .line) := classifyAll_plain ds hds
  have hcs : classifyAll ("---" :: ds) = .ok (.separator :: ds.map .line) := by
    have e : classifyAll ("---" :: ds)
        = match classifyLine "---" with
          | .error e => .error e
          | .ok k =>
            match classifyAll ds with
            | .error e => .error e
            | .ok ks => .ok (k :: ks) := rfl
    rw [e, show classifyLine "---" = .ok .separator from rfl, hcds]
  have hcm : classifyAll (ms ++ "---" :: ds)
      = .ok (ms.map .line ++ .separator :: ds.map .line) := by
    rw [classifyAll_append ms _, classifyAll_plain ms hms, hcs]
  have hcb : classifyAll (db :: (ms ++ "---" :: ds))
      = .ok (.entity b :: (ms.map .line ++ .separator :: ds.map .line)) := by
    have e : classifyAll (db :: (ms ++ "---" :: ds))
        = match classifyLine db with
          | .error e => .error e
          | .ok k =>
            match classifyAll (ms ++ "---" :: ds) with
            | .error e => .error e
            | .ok ks => .ok (k :: ks) := rfl
    rw [e, hdb, hcm]
  have hca : classifyAll (da :: db :: (ms ++ "---" :: ds))
      = .ok (.entity a :: .entity b :: (ms.map .line ++ .separator :: ds.map .line)) := by
    have e : classifyAll (da :: db :: (ms ++ "---" :: ds))
        = match classifyLine da with
          | .error e => .error e
          | .ok k =>
            match classifyAll (db :: (ms ++ "---" :: ds)) with
            | .error e => .error e
            | .ok ks => .ok (k :: ks) := rfl
    rw [e, hda, hcb]
  have hrun : runParse ((.entity a :: .entity b ::
          (ms.map .line ++ .separator :: ds.map .line)) ++ [.eof]) 0 initCtx
      = .ok { phase := none, current := none,
              ast := [sealDoc (sealMeta
                { title := none, ref := some (.many [a, b]), meta := "", doc := "",
                  multi := true, sealed := false } ms) ds] } := by
    have e1 : runParse ((.entity a :: .entity b ::
            (ms.map .line ++ .separator :: ds.map .line)) ++ [.eof]) 0 initCtx
        = runParse ((ms.map .line ++ .separator :: ds.map .line) ++ [.eof]) 2
            { phase := some .entity,
              current := some { title := none, ref := some (.many [a, b]), meta := "",
                                doc := "", multi := true, sealed := false },
              ast := [] } := rfl
    rw [e1, List.append_assoc, List.cons_append]
    rw [runParse_meta_run ms _ 2 .entity _ []]
    have e2 : runParse (.separator :: (ds.map .line ++ [.eof])) (2 + ms.length)
          { phase := some .entity,
            current := some (sealMeta { title := none, ref := some (.many [a, b]),
                                        meta := "", doc := "", multi := true,
                                        sealed := false } ms),
            ast := [] }
        = runParse (ds.map .line ++ [.eof]) (2 + ms.length + 1)
            { phase := none,
              current := some (sealMeta { title := none, ref := some (.many [a, b]),
                                          meta := "", doc := "", multi := true,
                                          sealed := false } ms),
              ast := [] } := rfl
    rw [e2, runParse_doc_run ds [.eof] _ _ []]
    rfl
  have hparse : parse (joinNL (da :: db :: (ms ++ "---" :: ds)))
      = .ok [sealDoc (sealMeta
          { title := none, ref := some (.many [a, b]), meta := "", doc := "",
            multi := true, sealed := false } ms) ds] := by
    rw [parse_joinNL _ hne hclean]
    have ep : parseLines (da :: db :: (ms ++ "---" :: ds))
        = match classifyAll (da :: db :: (ms ++ "---" :: ds)) with
          | .error e => .error e
          | .ok ns =>
            match runParse (ns ++ [.eof]) 0 initCtx with
            | .error e => .error e
            | .ok fin => .ok fin.ast := rfl
    rw [ep, hca]
    show (match runParse ((.entity a :: .entity b ::
              (ms.map .line ++ .separator :: ds.map .line)) ++ [.eof]) 0 initCtx with
          | .error e => (.error e : Except Err (List Record))
          | .ok fin => .ok fin.ast) = _
    rw [hrun]
  refine ⟨setField ((yload (sealDoc (sealMeta
      { title := none, ref := some (.many [a, b]), meta := "", doc := "",
        multi := true, sealed := false } ms) ds).meta).getD []) "documentation"
      (.str (sealDoc (sealMeta
        { title := none, ref := some (.many [a, b]), meta := "", doc := "",
          multi := true, sealed := false } ms) ds).doc), ?_⟩
  unfold analyseDoc
  rw [hparse]
  have hmulti : (sealDoc (sealMeta
      { title := none, ref := some (.many [a, b]), meta := "", doc := "",
        multi := true, sealed := false } ms) ds).multi = true := by
    rw [(sealDoc_fields ds _).2.2.2, (sealMeta_fields ms _).2.2.2]
  have href : (sealDoc (sealMeta
      { title := none, ref := some (.many [a, b]), meta := "", doc := "",
        multi := true, sealed := false } ms) ds).ref = some (.many [a, b]) := by
    rw [(sealDoc_fields ds _).2.1, (sealMeta_fields ms _).2.1]
  show Except.ok (analyse yload [sealDoc (sealMeta
      { title := none, ref := some (.many [a, b]), meta := "", doc := "",
        multi := true, sealed := false } ms) ds]) = _
  have hana : analyse yload [sealDoc (sealMeta
      { title := none, ref := some (.many [a, b]), meta := "", doc := "",
        multi := true, sealed := false } ms) ds]
      = parseMeta yload (sealDoc (sealMeta
        { title := none, ref := some (.many [a, b]), meta := "", doc := "",
          multi := true, sealed := false } ms) ds) := by
    unfold analyse
    simp [List.foldl]
  rw [hana]
  simp only [parseMeta, hmulti, href, if_true]
  rfl

/-- Witness for C7 on a concrete two-directive document with one
shared metadata and documentation block, under the empty YAML reader. -/
theorem multi_ref_two_units_witness :
    ∃ m, analyseDoc (fun _ => none)
        (joinNL ["@annotate: a", "@annotate: b", "stability: stable", "---", "Shared docs."])
      = .ok [{ title := none, ref := some (RefVal.one "a"), meta := m },
             { title := none, ref := some (RefVal.one "b"), meta := m }] :=
  multi_ref_two_units (fun _ => none) "@annotate: a" "@annotate: b" "a" "b"
    ["stability: stable"] ["Shared docs."]
    rfl rfl
    (fun p hp => by rw [List.mem_singleton.mp hp]; rfl)
    (fun p hp => by rw [List.mem_singleton.mp hp]; rfl)
    (by decide)

end FolktaleMM
